import Mathlib

/-!
Verification of the pyfes tidal-prediction wrapper (CNES/aviso-fes).

This file shallowly embeds the Python sources of the repository (and, where
the claims concern the compiled numeric core that ships only as a binary
extension, models the relevant operations from the specification) and proves
or refutes the behavioural claims about them.

Conventions used throughout:
* machine floating-point values are modelled as exact rationals (for grid
  coordinates and coefficients) or reals (for trigonometric summation);
* Python exceptions are modelled with `Except` / `Option`;
* `numpy` arrays are modelled as lists or as functions on `Fin`.
-/

/- ======================================================================
   Part 1. Leap seconds (src/src/python/pyfes/leap_seconds.py)
   ====================================================================== -/

/-- One row of the IERS leap-second table as produced by
`_load_leap_second_file`: the UTC instant (epoch seconds, i.e. seconds since
1970-01-01) at which a new UTC-TAI offset becomes valid, and that offset. -/
structure LeapEntry where
  utc : Int
  seconds : Nat
deriving DecidableEq

/-- Seconds elapsed between 1970-01-01T00:00:00Z and 1972-01-01T00:00:00Z
(730 days); `numpy.datetime64 ('1972-01-01')` as epoch seconds. -/
def epoch1972 : Int := 63072000

/-- `numpy.searchsorted (table, utc, side='right')` on a table sorted by
ascending `utc`: the number of entries whose instant is `≤ utc`. -/
def searchsortedRight (table : List LeapEntry) (utc : Int) : Nat :=
  table.countP (fun e => e.utc ≤ utc)

/-- `numpy` integer indexing `l[i]`: a negative index wraps around from the
end of the array; an index out of range raises `IndexError` (modelled as
`none`). -/
def numpyIndex {α : Type} (l : List α) (i : Int) : Option α :=
  if 0 ≤ i then l[i.toNat]?
  else if (-i).toNat ≤ l.length then l[(l.length - (-i).toNat)]? else none

/-- Result of `get_leap_seconds` for one input instant: the returned UTC-TAI
offset and whether the pre-1972 `UserWarning` was issued. -/
structure LeapSecondsResult where
  seconds : Nat
  warned : Bool
deriving DecidableEq

/-- `get_leap_seconds` (leap_seconds.py, lines 164-192) for a single instant:
issue a `UserWarning` for dates before 1972-01-01, look up
`table['seconds'][searchsorted (table['utc'], utc, side='right') - 1]`, then
overwrite pre-1972 results with 0.  `none` models an uncaught `IndexError`. -/
def get_leap_seconds (table : List LeapEntry) (utc : Int) : Option LeapSecondsResult :=
  let warned : Bool := decide (utc < epoch1972)
  let index : Int := (searchsortedRight table utc : Int)
  match numpyIndex (table.map (·.seconds)) (index - 1) with
  | none => none
  | some s => some ⟨if warned then 0 else s, warned⟩

/- ======================================================================
   Part 2. WaveDict.tide_from_tide_series
   (src/src/python/pyfes/wave_table.py, lines 185-210)
   ====================================================================== -/

/-- A tidal wave object held by a wave table.  `ident` models Python object
identity (pybind11 objects compare by identity against foreign types). -/
structure Wave where
  name : String
  ident : Nat
deriving DecidableEq

/-- A Python dictionary key appearing in `tide_from_tide_series`: the caller
passes a `dict [str, VectorComplex128]` (string keys), while the list
comprehension `[wave [item] for item in self]` indexes it with `Wave`
objects. -/
inductive PyKey where
  | str : String → PyKey
  | waveObj : Wave → PyKey
deriving DecidableEq

/-- Python dictionary key equality: strings compare by value, `Wave` objects
by identity, and a `Wave` object is never equal to a string. -/
def pyKeyEq : PyKey → PyKey → Bool
  | .str a, .str b => a == b
  | .waveObj a, .waveObj b => a == b
  | _, _ => false

/-- Python dict lookup `d [k]`; `none` models `KeyError`. -/
def pyDictGet {α : Type} (d : List (PyKey × α)) (k : PyKey) : Option α :=
  (d.find? (fun p => pyKeyEq p.1 k)).map (·.2)

/-- Python exceptions raised by `WaveDict.tide_from_tide_series`. -/
inductive PyError where
  | valueError (msg : String)
  | keyError
deriving DecidableEq

/-- The list comprehension `[wave [item] for item in self]`: iterating the
wave table yields `Wave` objects (cf. `WaveDict.freq`, wave_table.py line
159, and the tests), and each is used as a dict key. -/
def gatherCoefficients {α : Type} (wave : List (PyKey × α)) :
    List Wave → Except PyError (List α)
  | [] => .ok []
  | item :: rest =>
    match pyDictGet wave (.waveObj item) with
    | none => .error .keyError
    | some v => (gatherCoefficients wave rest).map (v :: ·)

/-- `WaveDict.tide_from_tide_series` (wave_table.py lines 185-210), up to the
construction of `wave_properties`: raise `ValueError` when the mapping size
differs from the table size, otherwise build the coefficient vector with
`[wave [item] for item in self]` (which the parent synthesis then consumes). -/
def tide_from_tide_series {α : Type} (self : List Wave) (wave : List (PyKey × α)) :
    Except PyError (List α) :=
  if wave.length ≠ self.length then
    .error (.valueError "wave must contain as many items as tidal constituents loaded")
  else
    gatherCoefficients wave self

/- ======================================================================
   Theorems for Part 1 (leap seconds, claim C9)
   ====================================================================== -/

/-- On a table sorted by strictly ascending instants, the entries at or
before `utc` form a prefix of the table of length `countP`. -/
theorem sorted_filter_eq_take (utc : Int) :
    ∀ l : List LeapEntry, l.Pairwise (fun a b => a.utc < b.utc) →
      l.filter (fun e => e.utc ≤ utc) = l.take (l.countP (fun e => e.utc ≤ utc)) := by
  intro l hl
  induction l with
  | nil => rfl
  | cons a t ih =>
    rcases List.pairwise_cons.mp hl with ⟨hat, ht⟩
    by_cases h : a.utc ≤ utc
    · simp [List.filter_cons, List.countP_cons, h, ih ht]
    · have hzero : t.countP (fun e => decide (e.utc ≤ utc)) = 0 := by
        apply List.countP_eq_zero.mpr
        intro e he
        have := hat e he
        simp only [decide_eq_true_eq]
        omega
      have hnil : t.filter (fun e => decide (e.utc ≤ utc)) = [] := by
        apply List.filter_eq_nil_iff.mpr
        intro e he
        have := hat e he
        simp only [decide_eq_true_eq]
        omega
      simp [List.filter_cons, List.countP_cons, h, hzero, hnil]

/-- C9: for a leap-second table sorted by strictly ascending instants whose
first entry is 1972-01-01 (the shape of the IERS file read by
`_load_leap_second_file`), `get_leap_seconds` never raises; for instants at
or after 1972-01-01 it returns, without warning, the offset of the latest
table entry at or before the instant, and for instants strictly before
1972-01-01 it returns 0 and issues the `UserWarning`. -/
theorem get_leap_seconds_spec (table : List LeapEntry) (utc : Int)
    (hsorted : table.Pairwise (fun a b => a.utc < b.utc))
    (hhead : table.head?.map (·.utc) = some epoch1972) :
    ∃ r, get_leap_seconds table utc = some r ∧
      (utc < epoch1972 → r = ⟨0, true⟩) ∧
      (epoch1972 ≤ utc →
        r.warned = false ∧
        some r.seconds =
          ((table.filter (fun e => e.utc ≤ utc)).getLast?).map (·.seconds)) := by
  cases table with
  | nil => simp at hhead
  | cons a t =>
    have ha : a.utc = epoch1972 := by simpa using hhead
    rcases List.pairwise_cons.mp hsorted with ⟨hat, ht⟩
    have hlen : (a :: t).length = t.length + 1 := rfl
    have heval : get_leap_seconds (a :: t) utc =
        match numpyIndex ((a :: t).map (·.seconds))
            ((searchsortedRight (a :: t) utc : Int) - 1) with
        | none => none
        | some s =>
          some ⟨if decide (utc < epoch1972) then 0 else s, decide (utc < epoch1972)⟩ := rfl
    by_cases hu : utc < epoch1972
    · -- pre-1972 instant: no entry qualifies, the lookup wraps to the last
      -- entry, and the result is overwritten with 0.
      have hcount : searchsortedRight (a :: t) utc = 0 := by
        apply List.countP_eq_zero.mpr
        intro e he
        simp only [decide_eq_true_eq]
        rcases List.mem_cons.mp he with rfl | het
        · omega
        · have := hat e het
          omega
      have hmaplen : ((a :: t).map (·.seconds)).length = t.length + 1 := by simp
      have htl : t.length < ((a :: t).map (·.seconds)).length := by omega
      have hnum : numpyIndex ((a :: t).map (·.seconds))
          ((searchsortedRight (a :: t) utc : Int) - 1) =
          some (((a :: t).map (·.seconds))[t.length]) := by
        rw [hcount]
        unfold numpyIndex
        rw [if_neg (by omega), if_pos (by omega)]
        have hi : ((a :: t).map (·.seconds)).length
            - (-(((0 : Nat) : Int) - 1)).toNat = t.length := by omega
        rw [hi, List.getElem?_eq_getElem htl]
      refine ⟨⟨0, true⟩, ?_, fun _ => rfl, fun h => absurd h (by omega)⟩
      rw [heval, hnum]
      simp [hu]
    · -- instant at or after 1972-01-01: at least the first entry qualifies.
      have hu' : epoch1972 ≤ utc := by omega
      have hpa : (decide (a.utc ≤ utc)) = true := by
        simp only [decide_eq_true_eq, ha]
        exact hu'
      set c : Nat := searchsortedRight (a :: t) utc with hc
      have hcc : List.countP (fun e => decide (e.utc ≤ utc)) (a :: t) = c := rfl
      have hc1 : 1 ≤ c := by
        rw [hc]
        unfold searchsortedRight
        rw [List.countP_cons]
        simp [hpa]
      have hcle : c ≤ (a :: t).length := by
        rw [hc]
        exact List.countP_le_length _
      have hidx : c - 1 < (a :: t).length := by omega
      have hnum : numpyIndex ((a :: t).map (·.seconds)) ((c : Int) - 1) =
          some ((a :: t)[c - 1]).seconds := by
        unfold numpyIndex
        rw [if_pos (by omega)]
        have htn : ((c : Int) - 1).toNat = c - 1 := by omega
        rw [htn, List.getElem?_map, List.getElem?_eq_getElem hidx]
        rfl
      refine ⟨⟨((a :: t)[c - 1]).seconds, false⟩, ?_,
        fun h => absurd h (by omega), fun _ => ?_⟩
      · rw [heval, hnum]
        simp [hu]
      · refine ⟨rfl, ?_⟩
        have hfil := sorted_filter_eq_take utc (a :: t) hsorted
        rw [hcc] at hfil
        rw [hfil]
        have hlt : ((a :: t).take c).length = c := by
          rw [List.length_take]
          omega
        rw [List.getLast?_eq_getElem?, hlt, List.getElem?_take, if_pos (by omega),
          List.getElem?_eq_getElem hidx]
        rfl

/- ======================================================================
   Theorems for Part 2 (WaveDict.tide_from_tide_series, claim C10)
   ====================================================================== -/

/-- C10 (code bug): `WaveDict.tide_from_tide_series` checks the size of the
supplied mapping against the table and raises `ValueError` on mismatch, but
when the sizes do match on a non-empty table it raises `KeyError`: the list
comprehension `[wave [item] for item in self]` indexes the string-keyed
mapping (annotated `dict [str, VectorComplex128]`, and produced with string
keys by `WaveDict.harmonic_analysis`) with the `Wave` objects yielded by
iterating the table, and a `Wave` object equals no string key.  Evaluated
here on the failing input: a table holding the single constituent M2 and the
mapping `{'M2': 1}`. -/
theorem tide_from_tide_series_key_bug :
    tide_from_tide_series [⟨"M2", 0⟩] [(PyKey.str "M2", (1 : Int))] =
      .error .keyError ∧
    tide_from_tide_series [⟨"M2", 0⟩] ([] : List (PyKey × Int)) =
      .error (.valueError "wave must contain as many items as tidal constituents loaded") := by
  exact ⟨rfl, rfl⟩

/-- C9 witness: a three-entry prefix of the IERS table (1972-01-01,
1972-07-01, 1973-01-01) used to instantiate `get_leap_seconds_spec`. -/
def iersTable : List LeapEntry :=
  [⟨63072000, 10⟩, ⟨78796800, 11⟩, ⟨94694400, 12⟩]

/-- Witness for C9: the specification theorem instantiated on a concrete
table and the concrete instant 1972-07-14 (epoch second 80000000). -/
theorem get_leap_seconds_spec_witness :
    iersTable.Pairwise (fun a b => a.utc < b.utc) ∧
    (∃ r, get_leap_seconds iersTable 80000000 = some r ∧
      ((80000000 : Int) < epoch1972 → r = ⟨0, true⟩) ∧
      (epoch1972 ≤ (80000000 : Int) →
        r.warned = false ∧
        some r.seconds =
          ((iersTable.filter (fun e => e.utc ≤ (80000000 : Int))).getLast?).map
            (·.seconds))) :=
  ⟨by decide, get_leap_seconds_spec iersTable 80000000 (by decide) (by decide)⟩

/- ======================================================================
   Part 3. Constituent catalog and WaveTable construction
   ====================================================================== -/

/-- Modelled from the spec: the static, immutable constituent catalog of the
Darwin engine variant, which lives in the compiled core (`constituent.hpp`
enumerated fields, `core.constituents.known`).  The catalog is represented by
the constituent names that the repository's tests enumerate
(tests/python/core/test_wave_table.py, lines 67-75), listed in the
declaration order of the enumerated `Constituent` fields, the order the
wrapper docstring (wave_table.py lines 34-50) documents as the internal
ordering of a `WaveTable`. -/
def knownConstituents : List String :=
  ["Mm", "Mf", "Mtm", "MSqm", "2Q1", "Sigma1", "Q1", "Rho1", "O1", "MP1",
   "M11", "M12", "M13", "Chi1", "Pi1", "P1", "S1", "K1", "Psi1", "Phi1",
   "Theta1", "J1", "OO1", "MNS2", "Eps2", "2N2", "Mu2", "2MS2", "N2",
   "Nu2", "M2", "MKS2", "Lambda2", "L2", "2MN2", "T2", "S2", "R2", "K2",
   "MSN2", "Eta2", "2SM2", "MO3", "2MK3", "M3", "MK3", "N4", "MN4", "M4",
   "SN4", "MS4", "MK4", "S4", "SK4", "R4", "2MN6", "M6", "MSN6", "2MS6",
   "2MK6", "2SM6", "MSK6", "S6", "M8", "MSf", "Ssa", "Sa"]

/-- Python's `str.lower` restricted to the ASCII constituent names, mapped
to the character list of the string (so that it evaluates by kernel
reduction). -/
def lowerName (s : String) : List Char := s.data.map Char.toLower

/-- Case-insensitive scan of a name list, returning the index of the first
(lower-cased) match. -/
def findConstituentIdx (s : String) : List String → Option Nat
  | [] => none
  | c :: rest =>
    if lowerName c == lowerName s then some 0
    else (findConstituentIdx s rest).map (· + 1)

/-- Modelled from the spec: `WaveTable.find` / constituent-catalog lookup by
name (compiled core) — a case-insensitive string lookup returning the
constituent, raising for an unknown name. -/
def WaveTable.find (s : String) : Except String Nat :=
  match findConstituentIdx s knownConstituents with
  | some i => .ok i
  | none => .error "unknown constituent name"

/-- Modelled from the spec and the wrapper docstring: the `WaveTable`
constructor (compiled core).  Every requested name must be a known
constituent; the resulting table stores the constituents ordered by the
declaration order of the catalog — the docstring of `WaveTable`
(wave_table.py lines 34-50) warns that this does not match the order of the
constructor's argument. -/
def WaveTable.ofNames (names : List String) : Except String (List String) :=
  if names.all (fun s => knownConstituents.any (fun c => lowerName c == lowerName s)) then
    .ok (knownConstituents.filter (fun c => names.any (fun s => lowerName s == lowerName c)))
  else
    .error "unknown constituent name"

/- ======================================================================
   Theorems for Part 3 (constituent lookup C5, table ordering C4)
   ====================================================================== -/


/-- A successful case-insensitive scan returns an index holding a name whose
lower-cased form matches the query. -/
theorem findConstituentIdx_some (s : String) :
    ∀ (l : List String) (i : Nat), findConstituentIdx s l = some i →
      ∃ k, l[i]? = some k ∧ lowerName k = lowerName s := by
  intro l
  induction l with
  | nil => intro i h; simp [findConstituentIdx] at h
  | cons c rest ih =>
    intro i h
    unfold findConstituentIdx at h
    by_cases hc : lowerName c == lowerName s
    · rw [if_pos hc] at h
      cases h
      exact ⟨c, by simp, by simpa using hc⟩
    · rw [if_neg hc] at h
      cases hi : findConstituentIdx s rest with
      | none => rw [hi] at h; simp at h
      | some j =>
        rw [hi] at h
        simp only [Option.map_some'] at h
        cases h
        obtain ⟨k, hk, hkl⟩ := ih j hi
        refine ⟨k, ?_, hkl⟩
        rw [List.getElem?_cons_succ]
        exact hk

/-- The case-insensitive scan fails exactly when no name matches. -/
theorem findConstituentIdx_none (s : String) :
    ∀ l : List String, (∀ k ∈ l, lowerName k ≠ lowerName s) →
      findConstituentIdx s l = none := by
  intro l
  induction l with
  | nil => intro _; rfl
  | cons c rest ih =>
    intro h
    unfold findConstituentIdx
    rw [if_neg (by simpa using h c (List.mem_cons_self c rest)),
      ih (fun k hk => h k (List.mem_cons_of_mem c hk))]
    rfl

/-- The scan succeeds whenever some name matches case-insensitively. -/
theorem findConstituentIdx_isSome (s : String) :
    ∀ l : List String, (∃ k ∈ l, lowerName k = lowerName s) →
      ∃ i, findConstituentIdx s l = some i := by
  intro l
  induction l with
  | nil => rintro ⟨k, hk, -⟩; simp at hk
  | cons c rest ih =>
    rintro ⟨k, hk, hkl⟩
    unfold findConstituentIdx
    by_cases hc : lowerName c == lowerName s
    · exact ⟨0, by rw [if_pos hc]⟩
    · rcases List.mem_cons.mp hk with rfl | hk'
      · exact absurd (by simpa using hkl) hc
      · obtain ⟨j, hj⟩ := ih ⟨k, hk', hkl⟩
        exact ⟨j + 1, by rw [if_neg hc, hj]; rfl⟩

/-- The scan only looks at the lower-cased query: two queries with the same
lower-cased form scan identically. -/
theorem findConstituentIdx_congr (s t : String) (hst : lowerName s = lowerName t) :
    ∀ l : List String, findConstituentIdx s l = findConstituentIdx t l := by
  intro l
  induction l with
  | nil => rfl
  | cons c rest ih => unfold findConstituentIdx; rw [hst, ih]

/-- C5: constituent lookup by name is case-insensitive and total over known
names — every query that matches a known constituent (under any letter
casing) resolves to one index, every other casing of the same name resolves
to the same index, and an unknown name produces the error instead of a
value. -/
theorem constituent_lookup (s : String) :
    ((∃ k ∈ knownConstituents, lowerName k = lowerName s) →
      ∃ i, WaveTable.find s = .ok i ∧
        ∀ t : String, lowerName t = lowerName s → WaveTable.find t = .ok i) ∧
    ((∀ k ∈ knownConstituents, lowerName k ≠ lowerName s) →
      WaveTable.find s = .error "unknown constituent name") := by
  constructor
  · intro hex
    obtain ⟨i, hi⟩ := findConstituentIdx_isSome s knownConstituents hex
    refine ⟨i, ?_, ?_⟩
    · unfold WaveTable.find
      rw [hi]
    · intro t ht
      unfold WaveTable.find
      rw [findConstituentIdx_congr t s ht knownConstituents, hi]
  · intro hall
    unfold WaveTable.find
    rw [findConstituentIdx_none s knownConstituents hall]

/-- Witness for C5: the lookup of the lower-cased query string m2 resolves,
and resolves identically to the canonical name M2. -/
theorem constituent_lookup_witness :
    (∃ k ∈ knownConstituents, lowerName k = lowerName "m2") ∧
    (∃ i, WaveTable.find "m2" = .ok i ∧
      ∀ t : String, lowerName t = lowerName "m2" → WaveTable.find t = .ok i) :=
  ⟨by decide, (constituent_lookup "m2").1 (by decide)⟩

/-- C4 counterexample: the constructor argument order is not preserved — the
docstring's own example (wave_table.py lines 43-47): constructing from
`[M2, S2, N2, K1]` yields the keys `[K1, N2, M2, S2]`, the catalog
declaration order, not the construction order. -/
theorem waveTable_order_counterexample :
    ∃ wt, WaveTable.ofNames ["M2", "S2", "N2", "K1"] = Except.ok wt ∧
      wt ≠ ["M2", "S2", "N2", "K1"] :=
  ⟨["K1", "N2", "M2", "S2"], rfl, by decide⟩

/-- C4 amended: a WaveTable built from an accepted list of constituent names
stores the requested constituents as a subsequence of the engine's catalog —
i.e. in the catalog's declaration order, not the construction order — it
contains exactly the (case-insensitively) requested known names, and its
names are case-insensitively unique. -/
theorem waveTable_catalog_ordered (names : List String) (wt : List String)
    (h : WaveTable.ofNames names = .ok wt) :
    wt.Sublist knownConstituents ∧
    (∀ c, c ∈ wt ↔ c ∈ knownConstituents ∧ ∃ s ∈ names, lowerName s = lowerName c) ∧
    (wt.map lowerName).Nodup := by
  unfold WaveTable.ofNames at h
  split at h
  · cases h
    refine ⟨List.filter_sublist _, ?_, ?_⟩
    · intro c
      rw [List.mem_filter]
      constructor
      · rintro ⟨hc, hany⟩
        refine ⟨hc, ?_⟩
        simpa [List.any_eq_true] using hany
      · rintro ⟨hc, s, hs, hsl⟩
        refine ⟨hc, ?_⟩
        simp only [List.any_eq_true]
        exact ⟨s, hs, by simpa using hsl⟩
    · have hnd : (knownConstituents.map lowerName).Nodup := by decide
      exact List.Nodup.sublist ((List.filter_sublist _).map lowerName) hnd
  · exact Except.noConfusion h

/-- Witness for C4 (amended): a table built from `[M2, K1]` is the catalog
subsequence `[K1, M2]`. -/
theorem waveTable_catalog_ordered_witness :
    WaveTable.ofNames ["M2", "K1"] = .ok ["K1", "M2"] ∧
    (["K1", "M2"].Sublist knownConstituents ∧
      (∀ c, c ∈ ["K1", "M2"] ↔ c ∈ knownConstituents ∧
        ∃ s ∈ ["M2", "K1"], lowerName s = lowerName c) ∧
      ((["K1", "M2"].map lowerName).Nodup)) :=
  ⟨rfl, waveTable_catalog_ordered ["M2", "K1"] ["K1", "M2"] rfl⟩

/- ======================================================================
   Part 4. Harmonic analysis and synthesis (compiled core behind
   WaveTable.harmonic_analysis / tide_from_tide_series)
   ====================================================================== -/

/-- Modelled from the spec: the design matrix of
`WaveTable.harmonic_analysis` (compiled core) — one row per time sample, a
cosine and a sine column per constituent, each scaled by the nodal amplitude
factor: column `inl k` holds `f_k (t) * cos (vu_k (t))` and column `inr k`
holds `f_k (t) * sin (vu_k (t))`. -/
noncomputable def designMatrix (n m : ℕ) (f vu : Fin n → Fin m → ℝ) :
    Matrix (Fin m) (Fin n ⊕ Fin n) ℝ :=
  fun t k =>
    match k with
    | .inl i => f i t * Real.cos (vu i t)
    | .inr i => f i t * Real.sin (vu i t)

/-- Modelled from the spec: `WaveTable.harmonic_analysis` (compiled core) —
a least-squares solve of the normal equations over the design matrix built
from `f` and `vu`.  The complex coefficient of constituent `k` is carried as
the pair of reals `(w (inl k), w (inr k))` (its cosine and sine amplitudes).
The solve fails (`none`, the distinct error of the spec) when the normal
matrix is singular. -/
noncomputable def harmonic_analysis (n m : ℕ) (f vu : Fin n → Fin m → ℝ)
    (h : Fin m → ℝ) : Option ((Fin n ⊕ Fin n) → ℝ) :=
  @ite _ (IsUnit ((designMatrix n m f vu).transpose * designMatrix n m f vu).det)
    (Classical.propDecidable _)
    (some (((designMatrix n m f vu).transpose * designMatrix n m f vu)⁻¹.mulVec
      ((designMatrix n m f vu).transpose.mulVec h)))
    none

/-- Modelled from the spec: the harmonic-synthesis core of
`tide_from_tide_series` at the same dates and nodal corrections — the sum
`Σ_k f_k (t) * |H_k| * cos (vu_k (t) - phase (H_k))`, which expanded over the
cosine/sine amplitudes `w` is exactly the design matrix applied to `w`. -/
noncomputable def tide_series_synthesis (n m : ℕ) (f vu : Fin n → Fin m → ℝ)
    (w : (Fin n ⊕ Fin n) → ℝ) : Fin m → ℝ :=
  (designMatrix n m f vu).mulVec w

/-- C2: with fewer time samples than constituents the normal matrix is
rank-deficient, hence singular, and `harmonic_analysis` fails with its
distinct error rather than returning coefficients. -/
theorem harmonic_analysis_rank_deficient (n m : ℕ) (f vu : Fin n → Fin m → ℝ)
    (h : Fin m → ℝ) (hmn : m < n) :
    harmonic_analysis n m f vu h = none := by
  unfold harmonic_analysis
  rw [if_neg]
  intro hdet
  set A := designMatrix n m f vu with hA
  have hunit : IsUnit (A.transpose * A) := Matrix.isUnit_iff_isUnit_det _ |>.mpr hdet
  have hrank : (A.transpose * A).rank = Fintype.card (Fin n ⊕ Fin n) :=
    Matrix.rank_of_isUnit _ hunit
  have hle : (A.transpose * A).rank ≤ Fintype.card (Fin m) :=
    le_trans (Matrix.rank_mul_le_right _ _) (Matrix.rank_le_card_height _)
  rw [hrank] at hle
  simp only [Fintype.card_sum, Fintype.card_fin] at hle
  omega

/-- Witness for C2: one sample and two constituents (with vanishing nodal
inputs) make the solve fail. -/
theorem harmonic_analysis_rank_deficient_witness :
    1 < 2 ∧
    harmonic_analysis 2 1 (fun _ _ => 0) (fun _ _ => 0) (fun _ => 0) = none :=
  ⟨by norm_num,
    harmonic_analysis_rank_deficient 2 1 (fun _ _ => 0) (fun _ _ => 0) (fun _ => 0)
      (by norm_num)⟩

/-- Nodal amplitude factors of the concrete counterexample series: a single
constituent observed at three samples, all factors 1. -/
def cf3 : Fin 1 → Fin 3 → ℝ := fun _ _ => 1

/-- Phases of the concrete counterexample series: `vu = π/2` at the middle
sample and `0` at the two outer samples. -/
noncomputable def cvu3 : Fin 1 → Fin 3 → ℝ :=
  fun _ t => if t = 1 then Real.pi / 2 else 0

/-- The concrete observed series `(1, 0, 0)`: not a harmonic synthesis over
the single constituent, because samples 0 and 2 share identical nodal data
yet differ in value. -/
def ch3 : Fin 3 → ℝ := ![1, 0, 0]

/-- C1 counterexample: harmonic analysis followed by synthesis is *not* an
identity on arbitrary sea-level series.  For the three-sample series
`(1, 0, 0)` of one constituent with `f = 1` and `vu = (0, π/2, 0)`, no
coefficient vector — in particular not the least-squares solution —
synthesises back the original series, because samples 0 and 2 have equal
design rows but unequal observed values. -/
theorem harmonic_roundtrip_counterexample :
    ¬ ∃ w, harmonic_analysis 1 3 cf3 cvu3 ch3 = some w ∧
        tide_series_synthesis 1 3 cf3 cvu3 w = ch3 := by
  rintro ⟨w, -, hs⟩
  have hrow : designMatrix 1 3 cf3 cvu3 0 = designMatrix 1 3 cf3 cvu3 2 := by
    funext k
    rcases k with i | i <;> simp [designMatrix, cf3, cvu3]
  have h02 : tide_series_synthesis 1 3 cf3 cvu3 w 0 =
      tide_series_synthesis 1 3 cf3 cvu3 w 2 := by
    unfold tide_series_synthesis
    exact congrArg (fun r : (Fin 1 ⊕ Fin 1) → ℝ => Matrix.dotProduct r w) hrow
  rw [hs] at h02
  norm_num [ch3] at h02

/-- C1 amended: the round-trip law holds on series that are themselves a
harmonic synthesis over the same constituent set and the same nodal
corrections (the spec's synthetic-series premise), provided the normal
matrix is invertible: the analysis then succeeds and the synthesis at the
same dates reproduces the series exactly. -/
theorem harmonic_analysis_roundtrip (n m : ℕ) (f vu : Fin n → Fin m → ℝ)
    (h : Fin m → ℝ)
    (hdet : IsUnit ((designMatrix n m f vu).transpose * designMatrix n m f vu).det)
    (hspan : ∃ x, h = tide_series_synthesis n m f vu x) :
    ∃ w, harmonic_analysis n m f vu h = some w ∧
      tide_series_synthesis n m f vu w = h := by
  obtain ⟨x, rfl⟩ := hspan
  refine ⟨((designMatrix n m f vu).transpose * designMatrix n m f vu)⁻¹.mulVec
      ((designMatrix n m f vu).transpose.mulVec (tide_series_synthesis n m f vu x)),
    ?_, ?_⟩
  · unfold harmonic_analysis
    rw [if_pos hdet]
  · unfold tide_series_synthesis
    set A := designMatrix n m f vu with hA
    rw [Matrix.mulVec_mulVec, Matrix.mulVec_mulVec, Matrix.mulVec_mulVec]
    have key : A * ((A.transpose * A)⁻¹ * (A.transpose * A)) = A := by
      rw [Matrix.nonsing_inv_mul _ hdet, Matrix.mul_one]
    calc (A * (A.transpose * A)⁻¹ * A.transpose * A).mulVec x
        = (A * ((A.transpose * A)⁻¹ * (A.transpose * A))).mulVec x := by
          rw [Matrix.mul_assoc (A * (A.transpose * A)⁻¹), Matrix.mul_assoc]
      _ = A.mulVec x := by rw [key]

/-- Nodal amplitude factors of the concrete round-trip witness: one
constituent, two samples, factors 1. -/
def cf2 : Fin 1 → Fin 2 → ℝ := fun _ _ => 1

/-- Phases of the concrete round-trip witness: `vu = 0` at the first sample
and `π/2` at the second, giving an orthonormal design matrix. -/
noncomputable def cvu2 : Fin 1 → Fin 2 → ℝ :=
  fun _ t => if t = 1 then Real.pi / 2 else 0

/-- Cosine/sine amplitudes `(2, 3)` of the synthetic witness series. -/
def cx2 : (Fin 1 ⊕ Fin 1) → ℝ := Sum.elim (fun _ => 2) (fun _ => 3)

/-- The witness design matrix is orthonormal: its normal matrix is the
identity. -/
theorem designMatrix_cvu2_normal :
    (designMatrix 1 2 cf2 cvu2).transpose * designMatrix 1 2 cf2 cvu2 = 1 := by
  ext k l
  rcases k with i | i <;> rcases l with j | j <;>
    fin_cases i <;> fin_cases j <;>
      simp [Matrix.mul_apply, Matrix.transpose_apply, designMatrix, cf2, cvu2,
        Fin.sum_univ_two, Matrix.one_apply]

/-- Witness for C1 (amended): the round-trip theorem instantiated on the
synthetic two-sample series generated by the amplitudes `(2, 3)`. -/
theorem harmonic_analysis_roundtrip_witness :
    IsUnit ((designMatrix 1 2 cf2 cvu2).transpose * designMatrix 1 2 cf2 cvu2).det ∧
    ∃ w, harmonic_analysis 1 2 cf2 cvu2 (tide_series_synthesis 1 2 cf2 cvu2 cx2) =
        some w ∧
      tide_series_synthesis 1 2 cf2 cvu2 w = tide_series_synthesis 1 2 cf2 cvu2 cx2 := by
  have hdet :
      IsUnit ((designMatrix 1 2 cf2 cvu2).transpose * designMatrix 1 2 cf2 cvu2).det := by
    rw [designMatrix_cvu2_normal, Matrix.det_one]
    exact isUnit_one
  exact ⟨hdet, harmonic_analysis_roundtrip 1 2 cf2 cvu2 _ hdet ⟨cx2, rfl⟩⟩

/- ======================================================================
   Part 5. Cartesian grid model and tide evaluator (compiled core behind
   core.Axis, core.tidal_model.Cartesian*, core.evaluate_tide)
   ====================================================================== -/

/-- Modelled from the spec: the compiled core's `Axis` — a regular
coordinate axis with values `start + i * step` for `i < size`, optionally
periodic with a 360-degree circle (longitude axes).  Coordinates are exact
rationals standing for the float degrees. -/
structure Axis where
  start : ℚ
  step : ℚ
  size : ℕ
  is_periodic : Bool
deriving DecidableEq

/-- Modelled from the spec: periodic coordinate normalization — a periodic
axis maps the query into `[start, start + 360)` by removing whole turns; a
non-periodic axis leaves it unchanged. -/
def Axis.normalize (a : Axis) (x : ℚ) : ℚ :=
  if a.is_periodic then x - 360 * (⌊(x - a.start) / 360⌋ : ℤ) else x

/-- Cell lookup on an already-normalized coordinate: the two bracketing node
indices and the fractional position inside the cell.  A periodic axis wraps
the indices modulo its size; a non-periodic axis fails (`none`) outside the
node range. -/
def Axis.find_indices_norm (a : Axis) (xn : ℚ) : Option (ℕ × ℕ × ℚ) :=
  let q := (xn - a.start) / a.step
  let i : ℤ := ⌊q⌋
  if a.is_periodic then
    if a.size = 0 then none
    else some ((i % (a.size : ℤ)).toNat, ((i + 1) % (a.size : ℤ)).toNat, q - i)
  else
    if 0 ≤ i ∧ i + 1 < (a.size : ℤ) then some (i.toNat, i.toNat + 1, q - i)
    else none

/-- Modelled from the spec: `Axis.find_indices` — normalize the query
coordinate, then look up the bracketing cell. -/
def Axis.find_indices (a : Axis) (x : ℚ) : Option (ℕ × ℕ × ℚ) :=
  a.find_indices_norm (a.normalize x)

/-- Modelled from the spec: a `CartesianGridModel` — two axes plus
per-constituent complex coefficients (pairs of rationals) on the grid nodes;
`none` marks a masked (land) node. -/
structure CartesianModel where
  lon : Axis
  lat : Axis
  constituents : List (String × (ℕ → ℕ → Option (ℚ × ℚ)))

/-- Bilinear blend of the four corner values with cell weights `wx`, `wy`. -/
def bilinear (v00 v01 v10 v11 : ℚ × ℚ) (wx wy : ℚ) : ℚ × ℚ :=
  ((1 - wx) * (1 - wy) * v00.1 + (1 - wx) * wy * v01.1
     + wx * (1 - wy) * v10.1 + wx * wy * v11.1,
   (1 - wx) * (1 - wy) * v00.2 + (1 - wx) * wy * v01.2
     + wx * (1 - wy) * v10.2 + wx * wy * v11.2)

/-- Bilinear interpolation of one constituent from its four surrounding
nodes; `none` when one of the corners is masked. -/
def interpOne (v : ℕ → ℕ → Option (ℚ × ℚ)) (i0 i1 j0 j1 : ℕ) (wx wy : ℚ) :
    Option (ℚ × ℚ) :=
  match v i0 j0, v i0 j1, v i1 j0, v i1 j1 with
  | some a, some b, some c, some d => some (bilinear a b c d wx wy)
  | _, _, _, _ => none

/-- Modelled from the spec: `CartesianGridModel.interpolate` at one query
point — bilinear interpolation over the four surrounding nodes for every
constituent; quality flag 4 when the point is interpolated from 4 data
nodes, 0 when it is undefined (outside the grid, masked corner, or no
constituent loaded); an undefined point carries no coefficient values. -/
def interpolate (m : CartesianModel) (lon lat : ℚ) :
    List (String × Option (ℚ × ℚ)) × ℤ :=
  match m.lon.find_indices lon, m.lat.find_indices lat with
  | some (i0, i1, wx), some (j0, j1, wy) =>
    let results := m.constituents.map
      (fun c => (c.1, interpOne c.2 i0 i1 j0 j1 wx wy))
    if results.all (fun c => c.2.isSome) && !results.isEmpty then
      (results, 4)
    else
      (m.constituents.map (fun c => (c.1, none)), 0)
  | _, _ => (m.constituents.map (fun c => (c.1, none)), 0)

/-- A query point is outside the spatial coverage of the model when no model
data is available there: the cell lookup fails on an axis, the model holds
no constituent, or some queried constituent misses a corner value. -/
def outside_coverage (m : CartesianModel) (lon lat : ℚ) : Prop :=
  match m.lon.find_indices lon, m.lat.find_indices lat with
  | some (i0, i1, wx), some (j0, j1, wy) =>
      m.constituents = [] ∨
        ∃ c ∈ m.constituents, (interpOne c.2 i0 i1 j0 j1 wx wy).isSome = false
  | _, _ => True

/-- Modelled from the spec: the degree-2 / degree-3 latitude dependence of a
long-period spectral line (Legendre factor in the sine of the latitude). -/
noncomputable def latitudeFactor (degree3 : Bool) (lat : ℝ) : ℝ :=
  if degree3 then Real.sin lat * (5 * Real.sin lat ^ 2 - 3) / 2
  else (3 * Real.sin lat ^ 2 - 1) / 2

/-- One spectral line of the long-period equilibrium table: a fixed
amplitude, the degree of its latitude dependence, and its astronomical
argument evaluated at the query date.  Modelled from the spec — the numeric
Cartwright-Tayler-Edden table lives in the compiled core. -/
structure LongPeriodLine where
  amplitude : ℚ
  degree3 : Bool
  argument : ℝ

/-- Modelled from the spec: `LongPeriodEquilibrium.evaluate` — closed-form
summation of the spectral-line table at the given latitude (radians); it
consults no spatial model. -/
noncomputable def evaluate_equilibrium_long_period (lines : List LongPeriodLine)
    (lat : ℝ) : ℝ :=
  lines.foldr
    (fun l acc =>
      acc + (l.amplitude : ℝ) * latitudeFactor l.degree3 lat * Real.cos l.argument)
    0

/-- The short-period harmonic summation
`Σ_k f_k * (Re C_k * cos vu_k + Im C_k * sin vu_k)` over the interpolated
coefficients, with the per-constituent nodal data `(f, vu)` supplied by the
nodal-correction engine at the query date. -/
noncomputable def harmonicSum (coeffs : List (String × Option (ℚ × ℚ)))
    (fvu : String → ℝ × ℝ) : ℝ :=
  coeffs.foldr
    (fun c acc =>
      match c.2 with
      | some z => acc + (fvu c.1).1 * ((z.1 : ℝ) * Real.cos (fvu c.1).2
          + (z.2 : ℝ) * Real.sin (fvu c.1).2)
      | none => acc)
    0

/-- Modelled from the spec: `evaluate_tide` at a single query point —
interpolate the model coefficients, sum the short-period harmonics, and
independently evaluate the long-period equilibrium tide from the line table
and the latitude alone; at an undefined point (quality 0) the short-period
tide is `NaN` (`none`), propagated silently instead of raising. -/
noncomputable def evaluate_tide (m : CartesianModel) (lines : List LongPeriodLine)
    (fvu : String → ℝ × ℝ) (lon lat : ℚ) : Option ℝ × ℝ × ℤ :=
  if (interpolate m lon lat).2 = 0 then
    (none, evaluate_equilibrium_long_period lines ((lat : ℝ) * Real.pi / 180), 0)
  else
    (some (harmonicSum (interpolate m lon lat).1 fvu),
      evaluate_equilibrium_long_period lines ((lat : ℝ) * Real.pi / 180),
      (interpolate m lon lat).2)

/- ======================================================================
   Theorems for Part 5 (longitude periodicity C7, undefined points C3)
   ====================================================================== -/

/-- On a periodic axis, shifting the query by one full turn does not change
the normalized coordinate. -/
theorem Axis.normalize_add_360 (a : Axis) (h : a.is_periodic = true) (x : ℚ) :
    a.normalize (x + 360) = a.normalize x := by
  unfold Axis.normalize
  rw [h]
  simp only [if_true]
  have he : (x + 360 - a.start) / 360 = (x - a.start) / 360 + 1 := by ring
  rw [he, Int.floor_add_one]
  push_cast
  ring

/-- C7: on a model whose longitude axis is periodic, interpolation at
`lon + 360` returns exactly the same coefficients and the same quality flag
as interpolation at `lon`. -/
theorem interpolate_periodic (m : CartesianModel) (h : m.lon.is_periodic = true)
    (lon lat : ℚ) :
    interpolate m (lon + 360) lat = interpolate m lon lat := by
  unfold interpolate Axis.find_indices
  rw [Axis.normalize_add_360 m.lon h lon]

/-- A small concrete model: a periodic 4-node longitude axis, a 3-node
latitude axis, and a single constituent defined on every node. -/
def witnessModel : CartesianModel where
  lon := ⟨0, 1, 4, true⟩
  lat := ⟨0, 1, 3, false⟩
  constituents := [("S2", fun i j => some ((i : ℚ) + j, (i : ℚ) - j))]

/-- Witness for C7: the periodicity theorem instantiated on the concrete
model at the query point `(0.5, 0.5)`. -/
theorem interpolate_periodic_witness :
    witnessModel.lon.is_periodic = true ∧
    interpolate witnessModel (1/2 + 360) (1/2) = interpolate witnessModel (1/2) (1/2) :=
  ⟨rfl, interpolate_periodic witnessModel rfl (1/2) (1/2)⟩

/-- An uncovered query point gets the quality flag 0 from the interpolation
stage. -/
theorem interpolate_undefined_flag (m : CartesianModel) (lon lat : ℚ)
    (h : outside_coverage m lon lat) : (interpolate m lon lat).2 = 0 := by
  unfold outside_coverage at h
  unfold interpolate
  rcases hlon : m.lon.find_indices lon with - | ⟨i0, i1, wx⟩ <;>
    rcases hlat : m.lat.find_indices lat with - | ⟨j0, j1, wy⟩ <;> try rfl
  rw [hlon, hlat] at h
  replace h : m.constituents = [] ∨
      ∃ c ∈ m.constituents, (interpOne c.2 i0 i1 j0 j1 wx wy).isSome = false := h
  rcases h with hnil | ⟨c, hc, hcs⟩
  · simp [hnil]
  · have hall : (m.constituents.map
        (fun c => (c.1, interpOne c.2 i0 i1 j0 j1 wx wy))).all
          (fun c => c.2.isSome) = false := by
      rw [List.all_eq_false]
      exact ⟨(c.1, interpOne c.2 i0 i1 j0 j1 wx wy),
        List.mem_map_of_mem _ hc, by simp [hcs]⟩
    simp [hall]

/-- C3: at a query point outside the model's spatial coverage,
`evaluate_tide` does not raise — it returns quality flag 0 with an undefined
(`NaN`) short-period tide, while the long-period component is the defined
equilibrium value computed from the line table and the latitude alone,
identical for every model. -/
theorem evaluate_tide_outside (m : CartesianModel) (lines : List LongPeriodLine)
    (fvu : String → ℝ × ℝ) (lon lat : ℚ) (h : outside_coverage m lon lat) :
    evaluate_tide m lines fvu lon lat =
      (none, evaluate_equilibrium_long_period lines ((lat : ℝ) * Real.pi / 180), 0) ∧
    ∀ m' : CartesianModel,
      (evaluate_tide m' lines fvu lon lat).2.1 =
        evaluate_equilibrium_long_period lines ((lat : ℝ) * Real.pi / 180) := by
  have h0 := interpolate_undefined_flag m lon lat h
  constructor
  · unfold evaluate_tide
    rw [if_pos h0]
  · intro m'
    unfold evaluate_tide
    split <;> rfl

/-- The concrete model queried at latitude 10 is outside coverage: latitude
10 lies beyond its 3-node latitude axis. -/
theorem witnessModel_outside : outside_coverage witnessModel 0 10 := by
  have h : witnessModel.lat.find_indices 10 = none := by
    simp only [witnessModel, Axis.find_indices, Axis.find_indices_norm, Axis.normalize]
    norm_num
  unfold outside_coverage
  rw [h]
  rcases witnessModel.lon.find_indices 0 with - | ⟨i0, i1, wx⟩ <;> trivial

/-- Witness for C3: the concrete model queried at latitude 10, which is
beyond its 3-node latitude axis, with an empty long-period table. -/
theorem evaluate_tide_outside_witness :
    outside_coverage witnessModel 0 10 ∧
    (evaluate_tide witnessModel [] (fun _ => (0, 0)) 0 10 =
      (none,
        evaluate_equilibrium_long_period [] (((10 : ℚ) : ℝ) * Real.pi / 180), 0) ∧
     ∀ m' : CartesianModel,
       (evaluate_tide m' [] (fun _ => (0, 0)) 0 10).2.1 =
         evaluate_equilibrium_long_period [] (((10 : ℚ) : ℝ) * Real.pi / 180)) :=
  ⟨witnessModel_outside,
    evaluate_tide_outside witnessModel [] (fun _ => (0, 0)) 0 10 witnessModel_outside⟩
